import Mathlib

/-!
Verification of the asynchronous anytime SMC engine (src/src/inference/asmc.js
together with the numeric helpers of src/src/util.js).

Shallow embedding conventions:
* JS floating-point numbers holding log-weights are modelled as extended reals
  (`EReal`), so `-Infinity` is `⊥`.  `+Infinity` (`⊤`) and `NaN` never arise on
  the states reachable by the engine; at such unreachable corners the total
  Lean functions below pick harmless junk values (noted next to each helper).
* `Math.random()` draws are passed in as explicit oracle arguments: the
  scheduler pick `i` (JS computes `Math.floor((len+1)*Math.random()) ∈ [0,len]`)
  and the uniform draw `u` used by the underperform branch of `factor`.
* The mutable JS objects (particles, the scheduler state) become immutable
  records updated functionally; aliasing is benign because the active particle
  is never simultaneously referenced from the buffer.
* Model code (already CPS-compiled in the source, opaque to asmc.js) is
  reified as a function from a store to its next coroutine call (`factor` with
  a score and a continuation, or `exit` with a value); `sample` is forward-only
  in the source and is absorbed into that function.
-/

namespace ASMC

noncomputable section

/-- JS `Math.log` as used by the engine: `Math.log 0 = -Infinity`, positive
arguments give the real logarithm.  (Negative arguments give NaN in JS; they
never occur in the engine, and are mapped to `⊥` here.) -/
def jsLog (x : ℝ) : EReal := if x ≤ 0 then (⊥ : EReal) else ((Real.log x : ℝ) : EReal)

/-- JS `Math.exp` on an extended real: `Math.exp (-Infinity) = 0`, finite
arguments give the real exponential.  (The `⊤` case would be `+Infinity` in
JS; it is unreachable in the engine and mapped to the junk value 0.) -/
def jsExp (x : EReal) : ℝ := if x = ⊥ ∨ x = ⊤ then 0 else Real.exp x.toReal

/-- `logsumexp` from src/src/util.js: max-subtract trick, with `-Infinity`
entries contributing zero to the sum. -/
def logsumexp (a : List EReal) : EReal :=
  let m : EReal := a.foldr max ⊥
  let s : ℝ := (a.map (fun x => if x = ⊥ then (0 : ℝ) else jsExp (x - m))).sum
  m + jsLog s

/-- One record of the per-observation ledger `obsWeights[n]` (asmc.js lines
109-112 and 137-140): the running reference log-weight after the k-th arrival
and the number of children awarded to that arrival. -/
structure LedgerEntry where
  wbar : EReal
  mnk : ℕ

/-- The next coroutine call a resumed particle performs: either `factor`
(with the new store, the score and the rest of the computation) or `exit`
(with the final store and return value). -/
inductive Susp (S A : Type) where
  | factorCall (store : S) (score : EReal) (k : S → Susp S A)
  | exitCall (store : S) (value : A)

/-- A particle record (asmc.js lines 15-41).  Stores and return values are
opaque to the engine, hence the type parameters. -/
structure Particle (S A : Type) where
  continuation : S → Susp S A
  weight : EReal
  finalWeight : EReal
  completed : Bool
  factorIndex : Option ℕ
  value : Option A
  numChildrenToSpawn : ℕ
  multiplicity : ℕ
  store : S

/-- `copyOneParticle` (asmc.js lines 15-27): same fields, one fork credit,
cloned store (store cloning is the identity in this value semantics). -/
def copyOneParticle {S A : Type} (particle : Particle S A) : Particle S A :=
  { particle with numChildrenToSpawn := 1 }

/-- `initParticle` (asmc.js lines 29-41). -/
def initParticle {S A : Type} (s : S) (cont : S → Susp S A) : Particle S A :=
  { continuation := cont
    weight := 0
    finalWeight := 0
    completed := false
    factorIndex := none
    value := none
    numChildrenToSpawn := 0
    multiplicity := 1
    store := s }

/-- The scheduler state: the fields of the `aSMC` coroutine object
(asmc.js lines 43-67).  `obsWeights` is the JS object keyed by factor
index. -/
structure AState (S A : Type) where
  buffer : List (Particle S A)
  bufferSize : ℕ
  numParticles : ℕ
  obsWeights : ℕ → Option (List LedgerEntry)
  exitedParticles : List (Particle S A)
  exitK : S → Susp S A
  store : S
  activeParticle : Option (Particle S A)

/-- The `aSMC` constructor (asmc.js lines 43-67) up to but not including its
final `this.control(numParticles)` call: field initialisation and initial
seeding of `⌊bufferSize * 3 / 5⌋` particles.  The source performs no
validation of `numParticles` or `bufferSize`. -/
def aSMCinit {S A : Type} (s : S) (wpplExitK : S → Susp S A)
    (numParticles bufferSize : ℕ) : AState S A :=
  { buffer := List.replicate (bufferSize * 3 / 5) (initParticle s wpplExitK)
    bufferSize := bufferSize
    numParticles := numParticles
    obsWeights := fun _ => none
    exitedParticles := []
    exitK := wpplExitK
    store := s
    activeParticle := none }

/-- Modelled from the spec: `util.deleteIndex`, called by the scheduler
(asmc.js line 86), is absent from src/src/util.js.  Per the spec (section 4.4)
it removes the particle from the buffer at index `i`. -/
def deleteIndex {α : Type} (l : List α) (i : ℕ) : List α := l.eraseIdx i

/-- The choice part of `aSMC.prototype.control` (asmc.js lines 69-91): given
the pick `i` (JS draws `i` uniformly from `[0, buffer.length]`), produce the
particle that becomes active and the updated state.  `i = buffer.length`
injects a fresh particle; a buffered particle with more than one fork credit
is cloned (and its credit decremented in place); otherwise the buffered
particle is removed from the buffer and becomes active. -/
def controlPick {S A : Type} (st : AState S A) (i : ℕ) :
    Particle S A × AState S A :=
  if h : i < st.buffer.length then
    let launchP := st.buffer.get ⟨i, h⟩
    if 1 < launchP.numChildrenToSpawn then
      let dec := { launchP with numChildrenToSpawn := launchP.numChildrenToSpawn - 1 }
      (copyOneParticle launchP, { st with buffer := st.buffer.set i dec })
    else
      (launchP, { st with buffer := deleteIndex st.buffer i })
  else
    (initParticle st.store st.exitK, st)

/-- The factor index of the next observation (asmc.js lines 101-103). -/
def nextFI {S A : Type} (p : Particle S A) : ℕ :=
  match p.factorIndex with
  | none => 0
  | some fi => fi + 1

/-- The wbar of the last ledger entry, `lk[lk.length-1].wbar` (asmc.js line
120).  The ledger list is never empty where this is used; the empty case is
junk `⊥`. -/
def lastWbar (lk : List LedgerEntry) : EReal :=
  match lk.getLast? with
  | some e => e.wbar
  | none => ⊥

/-- The updated reference log-weight for a k-th arrival, k ≥ 2 (asmc.js lines
119-122): `denom = lk.length + multiplicity` and
`wbar = logsumexp [log (lk.length / denom) + prevWBar,
log (multiplicity / denom) + weight]`. -/
def refWbar (lk : List LedgerEntry) (currMultiplicity : ℕ) (currWeight : EReal) : EReal :=
  let denom : ℕ := lk.length + currMultiplicity
  logsumexp [jsLog ((lk.length : ℝ) / (denom : ℝ)) + lastWbar lk,
             jsLog ((currMultiplicity : ℝ) / (denom : ℝ)) + currWeight]

/-- The child count and per-child log-weight of a k-th arrival, k ≥ 2
(asmc.js lines 123-136), given the uniform draw `u`: if the arrival
underperforms the reference (`logRat < 0`), keep one child at weight `wbar`
with probability `exp logRat` and otherwise zero children; if it outperforms,
award `ceil (exp logRat)` children if `Σ mnk ≤ min (bufferSize, lk.length)`
and `floor (exp logRat)` otherwise, each child at weight
`weight - log children`. -/
def numChildrenAndWeight (bufSize : ℕ) (lk : List LedgerEntry)
    (currMultiplicity : ℕ) (currWeight : EReal) (u : ℝ) : ℕ × EReal :=
  let wbar := refWbar lk currMultiplicity currWeight
  let logRat := currWeight - wbar
  if logRat < 0 then
    if jsLog u < logRat then (1, wbar) else (0, ⊥)
  else
    let totalChildren := (lk.map LedgerEntry.mnk).sum
    let minK := min bufSize lk.length
    let rnk := jsExp logRat
    let clampedRnk := if totalChildren ≤ minK then ⌈rnk⌉₊ else ⌊rnk⌋₊
    (clampedRnk, currWeight - jsLog (clampedRnk : ℝ))

/-- The particle mutation at the top of `factor` (asmc.js lines 98-103):
add the score to the weight, save the continuation and store, and advance the
factor index. -/
def suspendUpd {S A : Type} (p : Particle S A) (s : S) (cc : S → Susp S A)
    (score : EReal) : Particle S A :=
  { p with weight := p.weight + score, continuation := cc, store := s,
           factorIndex := some (nextFI p) }

/-- `aSMC.prototype.factor` (asmc.js lines 97-160), acting on the active
particle `p` with the new store `s`, the continuation `cc`, the score and the
uniform draw `u`; the final `return this.control()` of the source is the next
scheduler step and is not part of this function. -/
def factorUpd {S A : Type} (st : AState S A) (p : Particle S A) (s : S)
    (cc : S → Susp S A) (score : EReal) (u : ℝ) : AState S A :=
  let newFI := nextFI p
  let p1 := suspendUpd p s cc score
  if p1.weight = ⊥ then
    { st with activeParticle := some p1 }
  else
    match st.obsWeights newFI with
    | none =>
      let det : LedgerEntry := { wbar := p1.weight, mnk := 1 }
      let p2 := { p1 with numChildrenToSpawn := 1, finalWeight := p1.weight }
      { st with obsWeights := Function.update st.obsWeights newFI (some [det]),
                activeParticle := some p2 }
    | some lk =>
      let wbar := refWbar lk p1.multiplicity p1.weight
      let ncw := numChildrenAndWeight st.bufferSize lk p1.multiplicity p1.weight u
      let det2 : LedgerEntry := { wbar := wbar, mnk := ncw.1 }
      let st2 := { st with
        obsWeights := Function.update st.obsWeights newFI (some (lk ++ [det2])) }
      if 0 < ncw.1 then
        let p2 :=
          if st.buffer.length < st.bufferSize then
            { p1 with numChildrenToSpawn := ncw.1, weight := ncw.2 }
          else
            { p1 with multiplicity := p1.multiplicity * ncw.1,
                      numChildrenToSpawn := 1, weight := ncw.2 }
        let p3 := { p2 with
          finalWeight := jsLog (p2.multiplicity : ℝ) + p2.weight + score }
        { st2 with buffer := st2.buffer ++ [p3], activeParticle := some p3 }
      else
        { st2 with activeParticle := some p1 }

/-- `aSMC.prototype.exit` (asmc.js lines 162-168): record the return value,
mark the particle completed, replace its weight by `finalWeight` and push it
onto the completed list.  (The aggregation performed once the budget is met,
lines 170-198, produces the output distribution and does not change the
particle bookkeeping modelled here.) -/
def exitUpd {S A : Type} (st : AState S A) (p : Particle S A) (v : A) :
    AState S A :=
  let p2 := { p with value := some v, completed := true, weight := p.finalWeight }
  { st with exitedParticles := st.exitedParticles ++ [p2],
            activeParticle := some p2 }

/-- Dispatch of the coroutine call reached by the resumed particle. -/
def handleSusp {S A : Type} (st : AState S A) (p : Particle S A)
    (sp : Susp S A) (u : ℝ) : AState S A :=
  match sp with
  | Susp.factorCall s sc k => factorUpd st p s k sc u
  | Susp.exitCall _ v => exitUpd st p v

/-- One scheduler step: choose the active particle per `control`, resume its
continuation with its store, and handle the coroutine call it reaches. -/
def schedStep {S A : Type} (st : AState S A) (i : ℕ) (u : ℝ) : AState S A :=
  let pr := controlPick st i
  let st1 := { pr.2 with activeParticle := some pr.1 }
  handleSusp st1 pr.1 (pr.1.continuation pr.1.store) u

/-- A run: iterate scheduler steps over a list of oracle draws. -/
def runSteps {S A : Type} (st : AState S A) (rs : List (ℕ × ℝ)) : AState S A :=
  match rs with
  | [] => st
  | r :: rest => runSteps (schedStep st r.1 r.2) rest

/-! ### Evaluation lemmas for the numeric helpers -/

theorem jsLog_of_pos {x : ℝ} (hx : 0 < x) : jsLog x = ((Real.log x : ℝ) : EReal) := by
  simp [jsLog, not_le.mpr hx]

theorem jsLog_one : jsLog 1 = 0 := by
  simp [jsLog, Real.log_one]

theorem jsLog_of_nonpos {x : ℝ} (hx : x ≤ 0) : jsLog x = ⊥ := by
  simp [jsLog, hx]

theorem jsExp_coe (r : ℝ) : jsExp ((r : ℝ) : EReal) = Real.exp r := by
  simp [jsExp, EReal.coe_ne_bot, EReal.coe_ne_top]

theorem jsExp_zero : jsExp (0 : EReal) = 1 := by
  have h : ((0 : ℝ) : EReal) = (0 : EReal) := by norm_cast
  rw [← h, jsExp_coe, Real.exp_zero]

theorem foldr_max_bot {l : List EReal} (h : ∀ x ∈ l, x = ⊥) :
    l.foldr max ⊥ = ⊥ := by
  induction l with
  | nil => rfl
  | cons a t ih =>
    have ha : a = ⊥ := h a (List.mem_cons_self a t)
    have ht : t.foldr max ⊥ = ⊥ := ih (fun x hx => h x (List.mem_cons_of_mem a hx))
    simp [ha, ht]

theorem ereal_coe_max (a b : ℝ) : ((max a b : ℝ) : EReal) = max (a : EReal) (b : EReal) := by
  rcases le_total a b with h | h
  · rw [max_eq_right h, max_eq_right (EReal.coe_le_coe_iff.mpr h)]
  · rw [max_eq_left h, max_eq_left (EReal.coe_le_coe_iff.mpr h)]

theorem logsumexp_coe_pair (a b : ℝ) :
    logsumexp [((a : ℝ) : EReal), ((b : ℝ) : EReal)]
      = ((Real.log (Real.exp a + Real.exp b) : ℝ) : EReal) := by
  have hmax : ([((a : ℝ) : EReal), ((b : ℝ) : EReal)].foldr max ⊥)
      = ((max a b : ℝ) : EReal) := by
    have h1 : max ((b : ℝ) : EReal) ⊥ = ((b : ℝ) : EReal) := max_eq_left bot_le
    simp only [List.foldr_cons, List.foldr_nil, h1, ereal_coe_max]
  have hsub : ∀ x : ℝ, ((x : ℝ) : EReal) - ((max a b : ℝ) : EReal)
      = ((x - max a b : ℝ) : EReal) := fun x => (EReal.coe_sub x (max a b)).symm
  have hsum : ([((a : ℝ) : EReal), ((b : ℝ) : EReal)].map
      (fun x => if x = ⊥ then (0 : ℝ) else jsExp (x - ((max a b : ℝ) : EReal)))).sum
      = Real.exp (a - max a b) + Real.exp (b - max a b) := by
    simp only [List.map_cons, List.map_nil, List.sum_cons, List.sum_nil,
      EReal.coe_ne_bot, if_neg, if_false, hsub, jsExp_coe, add_zero]
  have hpos : 0 < Real.exp (a - max a b) + Real.exp (b - max a b) := by positivity
  rw [logsumexp]
  simp only [hmax, hsum, jsLog_of_pos hpos, ← EReal.coe_add]
  congr 1
  have hdiv : Real.exp (a - max a b) + Real.exp (b - max a b)
      = (Real.exp a + Real.exp b) / Real.exp (max a b) := by
    rw [Real.exp_sub, Real.exp_sub, div_add_div_same]
  rw [hdiv, Real.log_div (by positivity) (Real.exp_ne_zero _), Real.log_exp]
  ring

theorem logsumexp_all_bot {l : List EReal} (h : ∀ x ∈ l, x = ⊥) :
    logsumexp l = ⊥ := by
  have hm := foldr_max_bot h
  have hsum : (l.map (fun x => if x = ⊥ then (0 : ℝ)
      else jsExp (x - (⊥ : EReal)))).sum = 0 := by
    apply List.sum_eq_zero
    intro y hy
    rcases List.mem_map.mp hy with ⟨x, hx, hxy⟩
    rw [← hxy, if_pos (h x hx)]
  simp only [logsumexp, hm, hsum, jsLog_of_nonpos le_rfl, EReal.add_bot]

theorem logsumexp_singleton {x : EReal} (hx : x ≠ ⊤) : logsumexp [x] = x := by
  induction x using EReal.rec with
  | h_bot =>
    exact logsumexp_all_bot (by intro y hy; simpa using hy)
  | h_real r =>
    have hmax : ([((r : ℝ) : EReal)].foldr max ⊥) = ((r : ℝ) : EReal) :=
      max_eq_left bot_le
    have hsub : ((r : ℝ) : EReal) - ((r : ℝ) : EReal) = (((r - r : ℝ)) : EReal) :=
      (EReal.coe_sub r r).symm
    rw [logsumexp]
    simp only [hmax, List.map_cons, List.map_nil, List.sum_cons, List.sum_nil,
      EReal.coe_ne_bot, if_neg, if_false, hsub, jsExp_coe, sub_self, Real.exp_zero,
      add_zero, jsLog_one, add_zero]
  | h_top => exact absurd rfl hx

/-- Closed form of the reference-weight recurrence on finite inputs: with a
non-empty ledger whose last reference weight is the real `pw`, a positive
multiplicity `m` and a finite arriving weight `w`, the new reference weight is
the log of the convex combination of the exponentiated weights. -/
theorem refWbar_coe (lk : List LedgerEntry) (m : ℕ) (w pw : ℝ)
    (hlast : lastWbar lk = ((pw : ℝ) : EReal)) (hlen : lk ≠ []) (hm : 0 < m) :
    refWbar lk m ((w : ℝ) : EReal)
      = ((Real.log (((lk.length : ℝ) * Real.exp pw + (m : ℝ) * Real.exp w)
          / ((lk.length : ℝ) + (m : ℝ))) : ℝ) : EReal) := by
  have hlen' : 0 < lk.length := List.length_pos.mpr hlen
  have hlenR : (0 : ℝ) < (lk.length : ℝ) := by exact_mod_cast hlen'
  have hmR : (0 : ℝ) < (m : ℝ) := by exact_mod_cast hm
  have hdenomR : ((lk.length + m : ℕ) : ℝ) = (lk.length : ℝ) + (m : ℝ) := by
    push_cast; ring
  have hdpos : (0 : ℝ) < (lk.length : ℝ) + (m : ℝ) := by positivity
  have h1 : (0 : ℝ) < (lk.length : ℝ) / ((lk.length : ℝ) + (m : ℝ)) := by positivity
  have h2 : (0 : ℝ) < (m : ℝ) / ((lk.length : ℝ) + (m : ℝ)) := by positivity
  rw [refWbar]
  simp only [hdenomR, hlast, jsLog_of_pos h1, jsLog_of_pos h2, ← EReal.coe_add,
    logsumexp_coe_pair]
  congr 1
  rw [Real.exp_add, Real.exp_add, Real.exp_log h1, Real.exp_log h2]
  rw [div_mul_eq_mul_div, div_mul_eq_mul_div, div_add_div_same]

theorem refWbar_one_entry :
    refWbar [⟨0, 1⟩] 1 0 = 0 := by
  have h0 : ((0 : ℝ) : EReal) = (0 : EReal) := by norm_cast
  have h := refWbar_coe [⟨0, 1⟩] 1 0 0 (by rw [lastWbar]; simp [h0]) (by simp)
    (by norm_num)
  rw [h0] at h
  rw [h]
  norm_num

theorem refWbar_two_entries :
    refWbar [⟨0, 1⟩, ⟨0, 1⟩] 1 0 = 0 := by
  have h0 : ((0 : ℝ) : EReal) = (0 : EReal) := by norm_cast
  have h := refWbar_coe [⟨0, 1⟩, ⟨0, 1⟩] 1 0 0 (by rw [lastWbar]; simp [h0])
    (by simp) (by norm_num)
  rw [h0] at h
  rw [h]
  norm_num

theorem ncw_second_arrival (u : ℝ) :
    numChildrenAndWeight 1 [⟨0, 1⟩] 1 0 u = (1, 0) := by
  rw [numChildrenAndWeight]
  simp only [refWbar_one_entry, sub_zero, lt_irrefl, if_false]
  norm_num [jsExp_zero, jsLog_one]

theorem ncw_third_arrival (u : ℝ) :
    numChildrenAndWeight 1 [⟨0, 1⟩, ⟨0, 1⟩] 1 0 u = (1, 0) := by
  rw [numChildrenAndWeight]
  simp only [refWbar_two_entries, sub_zero, lt_irrefl, if_false]
  norm_num [jsExp_zero, jsLog_one]

/-! ### A concrete model used for concrete runs: one score-0 factor, then exit -/

/-- The continuation the concrete model suspends with at its factor. -/
def afterFactorK : Unit → Susp Unit Unit := fun s2 => Susp.exitCall s2 ()

/-- A model with a single `factor` of score 0 followed by `exit`. -/
def oneFactorModel : Unit → Susp Unit Unit :=
  fun s => Susp.factorCall s 0 afterFactorK

/-- The particle produced by the concrete runs after passing the factor. -/
def tracePB : Particle Unit Unit :=
  { continuation := afterFactorK
    weight := 0
    finalWeight := 0
    completed := false
    factorIndex := some 0
    value := none
    numChildrenToSpawn := 1
    multiplicity := 1
    store := () }

/-- State after the first scheduler step of the bufferSize-1 run. -/
def traceStA : AState Unit Unit :=
  { buffer := []
    bufferSize := 1
    numParticles := 10
    obsWeights := Function.update (fun _ => none) 0 (some [⟨0, 1⟩])
    exitedParticles := []
    exitK := oneFactorModel
    store := ()
    activeParticle := some tracePB }

/-- State after the second scheduler step of the bufferSize-1 run. -/
def traceStB : AState Unit Unit :=
  { traceStA with
    obsWeights := Function.update (Function.update (fun _ => none) 0 (some [⟨0, 1⟩]))
      0 (some [⟨0, 1⟩, ⟨0, 1⟩])
    buffer := [tracePB]
    activeParticle := some tracePB }

/-- State after the third scheduler step of the bufferSize-1 run: the buffer
now holds two particles although `bufferSize = 1`. -/
def traceStC : AState Unit Unit :=
  { traceStB with
    obsWeights := Function.update (Function.update (Function.update (fun _ => none)
      0 (some [⟨0, 1⟩])) 0 (some [⟨0, 1⟩, ⟨0, 1⟩])) 0 (some [⟨0, 1⟩, ⟨0, 1⟩, ⟨0, 1⟩])
    buffer := [tracePB, tracePB]
    activeParticle := some tracePB }

theorem trace_step_one :
    schedStep (aSMCinit () oneFactorModel 10 1) 0 1 = traceStA := by
  simp [schedStep, aSMCinit, controlPick, handleSusp, factorUpd, suspendUpd, initParticle,
    oneFactorModel, afterFactorK, nextFI, EReal.zero_ne_bot, traceStA, tracePB]

theorem trace_step_two :
    schedStep traceStA 0 1 = traceStB := by
  simp [schedStep, traceStA, traceStB, tracePB, controlPick, handleSusp, factorUpd,
    suspendUpd, initParticle, oneFactorModel, afterFactorK, nextFI, EReal.zero_ne_bot,
    refWbar_one_entry, ncw_second_arrival, jsLog_one]

theorem trace_step_three :
    schedStep traceStB 1 1 = traceStC := by
  simp [schedStep, traceStA, traceStB, traceStC, tracePB, controlPick, handleSusp,
    factorUpd, suspendUpd, initParticle, oneFactorModel, afterFactorK, nextFI,
    EReal.zero_ne_bot, refWbar_two_entries, ncw_third_arrival, jsLog_one]

/-! ### Case analyses of `factorUpd` -/

theorem lastWbar_eq_getLast (lk : List LedgerEntry) (h : lk ≠ []) :
    lastWbar lk = (lk.getLast h).wbar := by
  rw [lastWbar, List.getLast?_eq_getLast_of_ne_nil h]

/-- The particle state recorded by the first-arrival branch (asmc.js lines
108-115). -/
def firstArrivalParticle {S A : Type} (p : Particle S A) (s : S)
    (cc : S → Susp S A) (score : EReal) : Particle S A :=
  { suspendUpd p s cc score with numChildrenToSpawn := 1,
                                 finalWeight := p.weight + score }

/-- The survivor pushed by the k-th-arrival branch when it has children
(asmc.js lines 142-155). -/
def survivorParticle {S A : Type} (st : AState S A) (p : Particle S A) (s : S)
    (cc : S → Susp S A) (score : EReal) (u : ℝ) (lk : List LedgerEntry) :
    Particle S A :=
  let p1 := suspendUpd p s cc score
  let ncw := numChildrenAndWeight st.bufferSize lk p1.multiplicity p1.weight u
  let p2 :=
    if st.buffer.length < st.bufferSize then
      { p1 with numChildrenToSpawn := ncw.1, weight := ncw.2 }
    else
      { p1 with multiplicity := p1.multiplicity * ncw.1,
                numChildrenToSpawn := 1, weight := ncw.2 }
  { p2 with finalWeight := jsLog (p2.multiplicity : ℝ) + p2.weight + score }

theorem factorUpd_first {S A : Type} (st : AState S A) (p : Particle S A)
    (s : S) (cc : S → Susp S A) (score : EReal) (u : ℝ)
    (hW : p.weight + score ≠ ⊥) (hlk : st.obsWeights (nextFI p) = none) :
    factorUpd st p s cc score u
      = { st with
          obsWeights := Function.update st.obsWeights (nextFI p)
            (some [⟨p.weight + score, 1⟩]),
          activeParticle := some (firstArrivalParticle p s cc score) } := by
  rw [factorUpd]
  rw [if_neg (show ¬ (suspendUpd p s cc score).weight = ⊥ from hW)]
  rw [show st.obsWeights (nextFI p) = none from hlk]
  rfl

theorem factorUpd_arrival {S A : Type} (st : AState S A) (p : Particle S A)
    (s : S) (cc : S → Susp S A) (score : EReal) (u : ℝ) (lk : List LedgerEntry)
    (hW : p.weight + score ≠ ⊥) (hlk : st.obsWeights (nextFI p) = some lk) :
    factorUpd st p s cc score u
      = (let p1 := suspendUpd p s cc score
         let ncw := numChildrenAndWeight st.bufferSize lk p1.multiplicity p1.weight u
         let ow := Function.update st.obsWeights (nextFI p)
           (some (lk ++ [⟨refWbar lk p1.multiplicity p1.weight, ncw.1⟩]))
         let st2 := { st with obsWeights := ow }
         if 0 < ncw.1 then
           { st2 with buffer := st2.buffer ++ [survivorParticle st p s cc score u lk],
                      activeParticle := some (survivorParticle st p s cc score u lk) }
         else
           { st2 with activeParticle := some p1 }) := by
  rw [factorUpd]
  rw [if_neg (show ¬ (suspendUpd p s cc score).weight = ⊥ from hW)]
  rw [show st.obsWeights (nextFI p) = some lk from hlk]
  rfl

theorem factorUpd_dead {S A : Type} (st : AState S A) (p : Particle S A)
    (s : S) (cc : S → Susp S A) (score : EReal) (u : ℝ)
    (hW : p.weight + score = ⊥) :
    factorUpd st p s cc score u
      = { st with activeParticle := some (suspendUpd p s cc score) } := by
  rw [factorUpd]
  rw [if_pos (show (suspendUpd p s cc score).weight = ⊥ from hW)]

/-! ### Claim theorems -/

/-- C10: for every non-empty list whose entries are all `-Infinity`, `logsumexp`
returns `-Infinity` (the `-Infinity` entries contribute zero, and the result is
a well-defined extended real, not NaN); and for every one-element list `[x]`
with `x` real or `-Infinity`, `logsumexp [x] = x`. -/
theorem C10_logsumexp_laws :
    (∀ l : List EReal, l ≠ [] → (∀ x ∈ l, x = ⊥) → logsumexp l = ⊥)
    ∧ (∀ x : EReal, x ≠ ⊤ → logsumexp [x] = x) :=
  ⟨fun _ _ h => logsumexp_all_bot h, fun _ hx => logsumexp_singleton hx⟩

theorem C10_logsumexp_laws_witness :
    logsumexp [(⊥ : EReal), ⊥] = ⊥ ∧ logsumexp [((2 : ℝ) : EReal)] = ((2 : ℝ) : EReal) :=
  ⟨C10_logsumexp_laws.1 [⊥, ⊥] (by simp) (by simp),
   C10_logsumexp_laws.2 ((2 : ℝ) : EReal) (EReal.coe_ne_top 2)⟩

/-- C8: when the active particle's weight after adding the score is `-Infinity`,
`factor` performs no ledger work, does not re-buffer the particle, and only
mutates the active-particle bookkeeping before returning to the scheduler. -/
theorem C8_dead_particle_skips_ledger {S A : Type} (st : AState S A)
    (p : Particle S A) (s : S) (cc : S → Susp S A) (score : EReal) (u : ℝ)
    (hdead : p.weight + score = ⊥) :
    (factorUpd st p s cc score u).obsWeights = st.obsWeights
    ∧ (factorUpd st p s cc score u).buffer = st.buffer
    ∧ factorUpd st p s cc score u
      = { st with activeParticle := some (suspendUpd p s cc score) } := by
  rw [factorUpd_dead st p s cc score u hdead]
  exact ⟨rfl, rfl, rfl⟩

theorem C8_dead_particle_skips_ledger_witness :
    (factorUpd (aSMCinit () oneFactorModel 10 1) (initParticle () oneFactorModel)
        () afterFactorK ⊥ 1).obsWeights
      = (aSMCinit () oneFactorModel 10 1).obsWeights
    ∧ (factorUpd (aSMCinit () oneFactorModel 10 1) (initParticle () oneFactorModel)
        () afterFactorK ⊥ 1).buffer
      = (aSMCinit () oneFactorModel 10 1).buffer := by
  have h := C8_dead_particle_skips_ledger (aSMCinit () oneFactorModel 10 1)
    (initParticle () oneFactorModel) () afterFactorK ⊥ 1
    (by simp [initParticle, EReal.add_bot])
  exact ⟨h.1, h.2.1⟩

/-- C1 (evaluation at the failing input): a first distinct arrival at an
observation with finite weight records `{wbar = W, mnk = 1}` and is awarded one
fork credit, but the buffer is left unchanged: the particle is never placed
back in the scheduler's buffer, so it is not re-buffered before the next
scheduler step (contrary to the claim and to the source's own comment that the
first particle at the observation keeps going). -/
theorem C1_first_arrival_not_rebuffered :
    (schedStep (aSMCinit () oneFactorModel 10 1) 0 1).buffer = []
    ∧ (schedStep (aSMCinit () oneFactorModel 10 1) 0 1).obsWeights 0 = some [⟨0, 1⟩]
    ∧ (schedStep (aSMCinit () oneFactorModel 10 1) 0 1).activeParticle = some tracePB
    ∧ tracePB.numChildrenToSpawn = 1 ∧ tracePB.weight = 0 := by
  rw [trace_step_one]
  refine ⟨rfl, ?_, rfl, rfl, rfl⟩
  simp [traceStA]

/-- C2 (counterexample): a concrete three-step run with `bufferSize = 1`
reaches a scheduler state whose buffer holds two particles, so the buffer
does exceed `bufferSize`: when the buffer is full and the active particle came
from fresh injection, the saturation branch still pushes the survivor. -/
theorem C2_buffer_bound_counterexample :
    (runSteps (aSMCinit () oneFactorModel 10 1) [(0, 1), (0, 1), (1, 1)]).bufferSize
      < (runSteps (aSMCinit () oneFactorModel 10 1) [(0, 1), (0, 1), (1, 1)]).buffer.length := by
  have hrun : runSteps (aSMCinit () oneFactorModel 10 1) [(0, 1), (0, 1), (1, 1)]
      = traceStC := by
    simp only [runSteps, trace_step_one, trace_step_two, trace_step_three]
  rw [hrun]
  simp [traceStC, traceStB, traceStA]

/-- C2 (amended): a `factor` call grows the buffer by at most one record, and
when the buffer is already full and the arrival is awarded `c ≥ 1` children,
the survivor's multiplicity is multiplied by `c`, its `numChildrenToSpawn` is
set to 1, and the survivor itself is still pushed, so the buffer grows by
exactly one at such a call (rather than not growing at all). -/
theorem C2_buffer_saturation {S A : Type} (st : AState S A) (p : Particle S A)
    (s : S) (cc : S → Susp S A) (score : EReal) (u : ℝ) :
    (factorUpd st p s cc score u).buffer.length ≤ st.buffer.length + 1
    ∧ (∀ lk, st.obsWeights (nextFI p) = some lk →
        p.weight + score ≠ ⊥ →
        st.bufferSize ≤ st.buffer.length →
        0 < (numChildrenAndWeight st.bufferSize lk p.multiplicity
              (p.weight + score) u).1 →
        (factorUpd st p s cc score u).buffer
            = st.buffer ++ [survivorParticle st p s cc score u lk]
          ∧ (survivorParticle st p s cc score u lk).multiplicity
              = p.multiplicity * (numChildrenAndWeight st.bufferSize lk
                  p.multiplicity (p.weight + score) u).1
          ∧ (survivorParticle st p s cc score u lk).numChildrenToSpawn = 1) := by
  constructor
  · by_cases hW : p.weight + score = ⊥
    · rw [factorUpd_dead st p s cc score u hW]
      simp
    · rcases hlk : st.obsWeights (nextFI p) with _ | lk
      · rw [factorUpd_first st p s cc score u hW hlk]
        simp
      · rw [factorUpd_arrival st p s cc score u lk hW hlk]
        by_cases hc : 0 < (numChildrenAndWeight st.bufferSize lk
            (suspendUpd p s cc score).multiplicity (suspendUpd p s cc score).weight u).1
        · simp [hc]
        · simp [hc]
  · intro lk hlk hW hfull hc
    have hc' : 0 < (numChildrenAndWeight st.bufferSize lk
        (suspendUpd p s cc score).multiplicity (suspendUpd p s cc score).weight u).1 := hc
    have hnl : ¬ st.buffer.length < st.bufferSize := not_lt.mpr hfull
    refine ⟨?_, ?_, ?_⟩
    · rw [factorUpd_arrival st p s cc score u lk hW hlk]
      simp only [if_pos hc']
    · rw [survivorParticle]
      simp only [if_neg hnl]
      rfl
    · rw [survivorParticle]
      simp only [if_neg hnl]

theorem C2_buffer_saturation_witness :
    (factorUpd traceStB (initParticle () oneFactorModel) () afterFactorK 0 1).buffer.length
      = traceStB.buffer.length + 1 := by
  have h := (C2_buffer_saturation traceStB (initParticle () oneFactorModel)
      () afterFactorK 0 1).2 [⟨0, 1⟩, ⟨0, 1⟩]
    (by simp [traceStB, traceStA, nextFI, initParticle])
    (by simp [initParticle, EReal.zero_ne_bot])
    (by simp [traceStB, traceStA])
    (by simp [traceStB, traceStA, initParticle, ncw_third_arrival])
  rw [h.1]
  simp

/-- The per-particle invariant that actually holds for buffered particles:
multiplicity at least one, and at least one fork credit once the particle has
passed an observation. -/
def ParticleOK {S A : Type} (p : Particle S A) : Prop :=
  1 ≤ p.multiplicity ∧ (p.factorIndex ≠ none → 1 ≤ p.numChildrenToSpawn)

/-- The scheduler-state invariant used in the inductive proof. -/
def BufferInv {S A : Type} (st : AState S A) : Prop :=
  (∀ p ∈ st.buffer, ParticleOK p)
  ∧ (∀ p, st.activeParticle = some p → 1 ≤ p.multiplicity)

theorem bufferInv_init {S A : Type} (s : S) (k : S → Susp S A) (n bs : ℕ) :
    BufferInv (aSMCinit s k n bs) := by
  constructor
  · intro p hp
    rw [aSMCinit] at hp
    have hp' := List.eq_of_mem_replicate hp
    subst hp'
    exact ⟨le_refl 1, fun h => absurd rfl h⟩
  · intro p hp
    simp [aSMCinit] at hp

theorem controlPick_active_mult {S A : Type} (st : AState S A) (i : ℕ)
    (h : BufferInv st) : 1 ≤ (controlPick st i).1.multiplicity := by
  rw [controlPick]
  split
  · rename_i hi
    by_cases hcred : 1 < (st.buffer.get ⟨i, hi⟩).numChildrenToSpawn
    · simp only [if_pos hcred]
      exact (h.1 _ (st.buffer.get_mem i hi)).1
    · simp only [if_neg hcred]
      exact (h.1 _ (st.buffer.get_mem i hi)).1
  · exact le_refl 1

theorem controlPick_buffer_ok {S A : Type} (st : AState S A) (i : ℕ)
    (h : ∀ p ∈ st.buffer, ParticleOK p) :
    ∀ p ∈ (controlPick st i).2.buffer, ParticleOK p := by
  rw [controlPick]
  split
  · rename_i hi
    by_cases hcred : 1 < (st.buffer.get ⟨i, hi⟩).numChildrenToSpawn
    · simp only [if_pos hcred]
      intro q hq
      rcases List.mem_or_eq_of_mem_set hq with hq' | hq'
      · exact h q hq'
      · subst hq'
        refine ⟨(h _ (st.buffer.get_mem i hi)).1, fun _ => ?_⟩
        show 1 ≤ (st.buffer.get ⟨i, hi⟩).numChildrenToSpawn - 1
        omega
    · simp only [if_neg hcred]
      intro q hq
      exact h q (List.mem_of_mem_eraseIdx hq)
  · exact h

theorem survivorParticle_ok {S A : Type} (st : AState S A) (p : Particle S A)
    (s : S) (cc : S → Susp S A) (score : EReal) (u : ℝ) (lk : List LedgerEntry)
    (hp : 1 ≤ p.multiplicity)
    (hc : 0 < (numChildrenAndWeight st.bufferSize lk p.multiplicity
      (p.weight + score) u).1) :
    ParticleOK (survivorParticle st p s cc score u lk)
    ∧ 1 ≤ (survivorParticle st p s cc score u lk).multiplicity := by
  rw [survivorParticle]
  by_cases hbl : st.buffer.length < st.bufferSize
  · simp only [if_pos hbl]
    exact ⟨⟨hp, fun _ => hc⟩, hp⟩
  · simp only [if_neg hbl]
    exact ⟨⟨Nat.mul_pos hp hc, fun _ => le_refl 1⟩, Nat.mul_pos hp hc⟩

theorem factorUpd_inv {S A : Type} (st : AState S A) (p : Particle S A) (s : S)
    (cc : S → Susp S A) (score : EReal) (u : ℝ)
    (hbuf : ∀ q ∈ st.buffer, ParticleOK q) (hp : 1 ≤ p.multiplicity) :
    (∀ q ∈ (factorUpd st p s cc score u).buffer, ParticleOK q)
    ∧ (∀ q, (factorUpd st p s cc score u).activeParticle = some q →
        1 ≤ q.multiplicity) := by
  by_cases hW : p.weight + score = ⊥
  · rw [factorUpd_dead st p s cc score u hW]
    refine ⟨hbuf, fun q hq => ?_⟩
    have hq' : suspendUpd p s cc score = q := by simpa using hq
    rw [← hq']
    exact hp
  · rcases hlk : st.obsWeights (nextFI p) with _ | lk
    · rw [factorUpd_first st p s cc score u hW hlk]
      refine ⟨hbuf, fun q hq => ?_⟩
      have hq' : firstArrivalParticle p s cc score = q := by simpa using hq
      rw [← hq']
      exact hp
    · rw [factorUpd_arrival st p s cc score u lk hW hlk]
      by_cases hc : 0 < (numChildrenAndWeight st.bufferSize lk
          (suspendUpd p s cc score).multiplicity (suspendUpd p s cc score).weight u).1
      · simp only [if_pos hc]
        have hs := survivorParticle_ok st p s cc score u lk hp hc
        constructor
        · intro q hq
          rcases List.mem_append.mp hq with hq' | hq'
          · exact hbuf q hq'
          · rw [List.mem_singleton.mp hq']
            exact hs.1
        · intro q hq
          have hq' : survivorParticle st p s cc score u lk = q := by simpa using hq
          rw [← hq']
          exact hs.2
      · simp only [if_neg hc]
        refine ⟨hbuf, fun q hq => ?_⟩
        have hq' : suspendUpd p s cc score = q := by simpa using hq
        rw [← hq']
        exact hp

theorem exitUpd_inv {S A : Type} (st : AState S A) (p : Particle S A) (v : A)
    (hbuf : ∀ q ∈ st.buffer, ParticleOK q) (hp : 1 ≤ p.multiplicity) :
    (∀ q ∈ (exitUpd st p v).buffer, ParticleOK q)
    ∧ (∀ q, (exitUpd st p v).activeParticle = some q → 1 ≤ q.multiplicity) := by
  rw [exitUpd]
  refine ⟨hbuf, fun q hq => ?_⟩
  have hq' : _ = q := Option.some_injective _ hq
  rw [← hq']
  exact hp

theorem schedStep_inv {S A : Type} (st : AState S A) (i : ℕ) (u : ℝ)
    (h : BufferInv st) : BufferInv (schedStep st i u) := by
  rw [schedStep]
  have hact := controlPick_active_mult st i h
  have hbuf := controlPick_buffer_ok st i h.1
  rcases hsp : (controlPick st i).1.continuation (controlPick st i).1.store
    with ⟨s2, sc, k⟩ | ⟨s2, v⟩
  · exact factorUpd_inv _ _ _ _ _ _ hbuf hact
  · exact exitUpd_inv _ _ _ hbuf hact

theorem runSteps_inv {S A : Type} (st : AState S A) (rs : List (ℕ × ℝ))
    (h : BufferInv st) : BufferInv (runSteps st rs) := by
  induction rs generalizing st with
  | nil => exact h
  | cons r rest ih => exact ih _ (schedStep_inv st r.1 r.2 h)

/-- C6 (amended): at every reachable scheduler state, every particle in the
buffer has multiplicity at least 1, and every particle in the buffer that has
passed an observation (its factor index is set) has at least one fork credit.
(The particles created by initial seeding sit in the buffer with
`numChildrenToSpawn = 0`, so the unrestricted credit claim fails; see the
counterexample.) -/
theorem C6_buffer_invariant {S A : Type} (s : S) (k : S → Susp S A)
    (n bs : ℕ) (rs : List (ℕ × ℝ)) (p : Particle S A)
    (hp : p ∈ (runSteps (aSMCinit s k n bs) rs).buffer) :
    1 ≤ p.multiplicity
    ∧ (p.factorIndex ≠ none → 1 ≤ p.numChildrenToSpawn) :=
  (runSteps_inv (aSMCinit s k n bs) rs (bufferInv_init s k n bs)).1 p hp

theorem C6_buffer_invariant_witness :
    1 ≤ tracePB.multiplicity ∧ 1 ≤ tracePB.numChildrenToSpawn := by
  have hmem : tracePB ∈ (runSteps (aSMCinit () oneFactorModel 10 1)
      [(0, 1), (0, 1)]).buffer := by
    have hrun : runSteps (aSMCinit () oneFactorModel 10 1) [(0, 1), (0, 1)]
        = traceStB := by
      simp only [runSteps, trace_step_one, trace_step_two]
    rw [hrun]
    simp [traceStB]
  have h := C6_buffer_invariant () oneFactorModel 10 1 [(0, 1), (0, 1)] tracePB hmem
  exact ⟨h.1, h.2 (by simp [tracePB])⟩

/-- C6 (counterexample): with `bufferSize = 5` the initial seeding places three
particles in the buffer and each of them has `numChildrenToSpawn = 0`, so the
claimed invariant `numChildrenToSpawn ≥ 1` fails for seeded particles. -/
theorem C6_seed_credits_counterexample :
    (aSMCinit () oneFactorModel 10 5).buffer.map
        (fun p => p.numChildrenToSpawn) = [0, 0, 0]
    ∧ (aSMCinit () oneFactorModel 10 5).buffer.length = 3 := by
  constructor
  · rfl
  · rfl

theorem refWbar_spelled (lk : List LedgerEntry) (hne : lk ≠ []) (m : ℕ)
    (W : EReal) :
    refWbar lk m W = logsumexp
      [jsLog ((lk.length : ℝ) / ((lk.length + m : ℕ) : ℝ)) + (lk.getLast hne).wbar,
       jsLog ((m : ℝ) / ((lk.length + m : ℕ) : ℝ)) + W] := by
  rw [refWbar, lastWbar_eq_getLast lk hne]

/-- C3: a k-th distinct arrival (k at least 2) at an observation with finite
weight appends to the ledger an entry whose reference weight is
`logsumexp [log ((k-1)/denom) + prevWbar, log (m/denom) + W]` with
`denom = (k-1) + m`, `prevWbar` the last recorded reference weight, and `k-1`
the ledger length before the arrival. -/
theorem C3_wbar_recurrence {S A : Type} (st : AState S A) (p : Particle S A)
    (s : S) (cc : S → Susp S A) (score : EReal) (u : ℝ) (lk : List LedgerEntry)
    (hlk : st.obsWeights (nextFI p) = some lk) (hne : lk ≠ [])
    (hW : p.weight + score ≠ ⊥) :
    ∃ c : ℕ, (factorUpd st p s cc score u).obsWeights (nextFI p)
      = some (lk ++ [⟨logsumexp
          [jsLog ((lk.length : ℝ) / ((lk.length + p.multiplicity : ℕ) : ℝ))
             + (lk.getLast hne).wbar,
           jsLog ((p.multiplicity : ℝ) / ((lk.length + p.multiplicity : ℕ) : ℝ))
             + (p.weight + score)], c⟩]) := by
  refine ⟨(numChildrenAndWeight st.bufferSize lk p.multiplicity
    (p.weight + score) u).1, ?_⟩
  rw [factorUpd_arrival st p s cc score u lk hW hlk]
  rw [← refWbar_spelled lk hne p.multiplicity (p.weight + score)]
  by_cases hc : 0 < (numChildrenAndWeight st.bufferSize lk
      (suspendUpd p s cc score).multiplicity (suspendUpd p s cc score).weight u).1
  · simp only [if_pos hc]
    exact Function.update_same _ _ _
  · simp only [if_neg hc]
    exact Function.update_same _ _ _

theorem C3_wbar_recurrence_witness :
    ((factorUpd traceStA (initParticle () oneFactorModel) () afterFactorK 0 1).obsWeights
      0).map List.length = some 2 := by
  obtain ⟨c, hc⟩ := C3_wbar_recurrence traceStA (initParticle () oneFactorModel)
    () afterFactorK 0 1 [⟨0, 1⟩]
    (by simp [traceStA, nextFI, initParticle])
    (by simp)
    (by simp [initParticle, EReal.zero_ne_bot])
  have h0 : nextFI (initParticle () oneFactorModel : Particle Unit Unit) = 0 := rfl
  rw [h0] at hc
  rw [hc]
  simp

/-- C4: for a k-th arrival (k at least 2) with finite weight `W`, multiplicity
`m` and `logRatio = W - wbar`: if `logRatio < 0` the particle keeps one child
with rebased weight `wbar` when `log u < logRatio` and otherwise is dropped
with zero children; if `logRatio ≥ 0` the child count is
`ceil (exp logRatio)` when `Σ mnk ≤ min (bufferSize, k-1)` and
`floor (exp logRatio)` otherwise (a positive count whenever `logRatio` is
finite), each child weighted `W - log c`; and in all branches the appended
ledger entry stores the just-computed `wbar` with `mnk` the outcome. -/
theorem C4_children_policy {S A : Type} (st : AState S A) (p : Particle S A)
    (s : S) (cc : S → Susp S A) (score : EReal) (u : ℝ) (lk : List LedgerEntry)
    (W wb lr : EReal) (c : ℕ) (w2 : EReal)
    (hlk : st.obsWeights (nextFI p) = some lk)
    (hWs : p.weight + score = W)
    (hW : W ≠ ⊥)
    (hwb : refWbar lk p.multiplicity W = wb)
    (hlr : W - wb = lr)
    (hncw : numChildrenAndWeight st.bufferSize lk p.multiplicity W u = (c, w2)) :
    (factorUpd st p s cc score u).obsWeights (nextFI p) = some (lk ++ [⟨wb, c⟩])
    ∧ (lr < 0 → jsLog u < lr → (c, w2) = (1, wb))
    ∧ (lr < 0 → ¬ jsLog u < lr →
        (c, w2) = (0, ⊥) ∧ (factorUpd st p s cc score u).buffer = st.buffer)
    ∧ (0 ≤ lr →
        c = (if (lk.map LedgerEntry.mnk).sum ≤ min st.bufferSize lk.length
             then ⌈jsExp lr⌉₊ else ⌊jsExp lr⌋₊)
        ∧ w2 = W - jsLog ((c : ℝ)))
    ∧ (0 < c → (factorUpd st p s cc score u).buffer
          = st.buffer ++ [survivorParticle st p s cc score u lk]
        ∧ (survivorParticle st p s cc score u lk).weight = w2
        ∧ (survivorParticle st p s cc score u lk).numChildrenToSpawn
            * (survivorParticle st p s cc score u lk).multiplicity
          = c * p.multiplicity)
    ∧ (lr ≠ ⊤ → 0 ≤ lr → 0 < c) := by
  have hW0 : p.weight + score ≠ ⊥ := by rw [hWs]; exact hW
  have e1 : (suspendUpd p s cc score).weight = W := hWs
  have e2 : (suspendUpd p s cc score).multiplicity = p.multiplicity := rfl
  have hncw' : numChildrenAndWeight st.bufferSize lk
      (suspendUpd p s cc score).multiplicity (suspendUpd p s cc score).weight u
      = (c, w2) := by rw [e1, e2]; exact hncw
  have hx := hncw
  simp only [numChildrenAndWeight] at hx
  rw [hwb, hlr] at hx
  refine ⟨?_, ?_, ?_, ?_, ?_, ?_⟩
  · rw [factorUpd_arrival st p s cc score u lk hW0 hlk]
    have hwb' : refWbar lk (suspendUpd p s cc score).multiplicity
        (suspendUpd p s cc score).weight = wb := by rw [e1, e2]; exact hwb
    simp only [hwb', hncw']
    rw [apply_ite (fun x : AState S A => x.obsWeights (nextFI p))]
    simp only [Function.update_same, ite_self]
  · intro h1 h2
    rw [if_pos h1, if_pos h2] at hx
    exact hx.symm
  · intro h1 h2
    rw [if_pos h1, if_neg h2] at hx
    have hc0 : c = 0 := (congrArg Prod.fst hx).symm
    refine ⟨hx.symm, ?_⟩
    rw [factorUpd_arrival st p s cc score u lk hW0 hlk]
    simp only [hncw', hc0, lt_irrefl, if_false]
  · intro h0
    rw [if_neg (not_lt.mpr h0)] at hx
    have hc1 := congrArg Prod.fst hx
    have hw2 := congrArg Prod.snd hx
    simp only at hc1 hw2
    rw [hc1] at hw2
    exact ⟨hc1.symm, hw2.symm⟩
  · intro hcpos
    have hc : 0 < (numChildrenAndWeight st.bufferSize lk
        (suspendUpd p s cc score).multiplicity (suspendUpd p s cc score).weight u).1 := by
      rw [hncw']; exact hcpos
    rw [factorUpd_arrival st p s cc score u lk hW0 hlk]
    simp only [if_pos hc]
    refine ⟨by trivial, ?_, ?_⟩
    · rw [survivorParticle]
      by_cases hbl : st.buffer.length < st.bufferSize
      · simp only [if_pos hbl, hncw']
      · simp only [if_neg hbl, hncw']
    · rw [survivorParticle]
      by_cases hbl : st.buffer.length < st.bufferSize
      · simp only [if_pos hbl, hncw']
        rfl
      · simp only [if_neg hbl, hncw']
        exact (Nat.one_mul _).trans (Nat.mul_comm p.multiplicity c)
  · intro hnt h0
    obtain ⟨r, hr⟩ : ∃ r : ℝ, lr = ((r : ℝ) : EReal) := by
      induction lr using EReal.rec with
      | h_bot => exact absurd (le_bot_iff.mp h0) EReal.zero_ne_bot
      | h_real r => exact ⟨r, rfl⟩
      | h_top => exact absurd rfl hnt
    have hr0 : (0 : ℝ) ≤ r := by
      rw [hr] at h0
      exact_mod_cast h0
    have hexp : (1 : ℝ) ≤ jsExp lr := by
      rw [hr, jsExp_coe]
      exact Real.one_le_exp hr0
    rw [if_neg (not_lt.mpr h0)] at hx
    have hc1 := (congrArg Prod.fst hx).symm
    simp only at hc1
    rw [hc1]
    split
    · exact Nat.ceil_pos.mpr (lt_of_lt_of_le zero_lt_one hexp)
    · exact Nat.lt_of_lt_of_le Nat.zero_lt_one (Nat.le_floor (by exact_mod_cast hexp))

theorem C4_children_policy_witness :
    (factorUpd traceStA (initParticle () oneFactorModel) () afterFactorK 0 1).obsWeights 0
      = some [⟨0, 1⟩, ⟨0, 1⟩] := by
  have h := C4_children_policy traceStA (initParticle () oneFactorModel)
    () afterFactorK 0 1 [⟨0, 1⟩] 0 0 0 1 0
    (by simp [traceStA, nextFI, initParticle])
    (by simp [initParticle])
    EReal.zero_ne_bot
    (by simp [initParticle, refWbar_one_entry])
    (by simp)
    (by simp [traceStA, initParticle, ncw_second_arrival])
  have h1 := h.1
  simpa [nextFI, initParticle] using h1

/-- The decrement performed on a cloned particle's buffer slot
(asmc.js line 83). -/
def decrementSpawn {S A : Type} (p : Particle S A) : Particle S A :=
  { p with numChildrenToSpawn := p.numChildrenToSpawn - 1 }

/-- C5: a scheduler step driven by a pick `i` from `[0, buffer.length]`
injects a fresh particle when `i = buffer.length`; otherwise, when the picked
particle has more than one fork credit it is cloned (`cloneOne`) and its slot
is decremented in place, and when it has at most one credit it is removed from
the buffer at index `i`; the step then resumes the active particle's
continuation with its store. -/
theorem C5_scheduler_step {S A : Type} (st : AState S A) (i : ℕ) (u : ℝ)
    (h : i ≤ st.buffer.length) :
    (i = st.buffer.length → controlPick st i = (initParticle st.store st.exitK, st))
    ∧ (∀ h2 : i < st.buffer.length,
        (1 < (st.buffer.get ⟨i, h2⟩).numChildrenToSpawn →
          (controlPick st i).1 = copyOneParticle (st.buffer.get ⟨i, h2⟩)
          ∧ (controlPick st i).2.buffer
              = st.buffer.set i (decrementSpawn (st.buffer.get ⟨i, h2⟩)))
        ∧ (¬ 1 < (st.buffer.get ⟨i, h2⟩).numChildrenToSpawn →
          (controlPick st i).1 = st.buffer.get ⟨i, h2⟩
          ∧ (controlPick st i).2.buffer = deleteIndex st.buffer i))
    ∧ schedStep st i u
        = handleSusp { (controlPick st i).2 with activeParticle := some (controlPick st i).1 }
            (controlPick st i).1
            ((controlPick st i).1.continuation (controlPick st i).1.store) u := by
  refine ⟨?_, ?_, rfl⟩
  · intro he
    rw [controlPick, dif_neg (by omega : ¬ i < st.buffer.length)]
  · intro h2
    constructor
    · intro hcred
      rw [controlPick, dif_pos h2]
      simp only [if_pos hcred]
      exact ⟨by trivial, by trivial⟩
    · intro hcred
      rw [controlPick, dif_pos h2]
      simp only [if_neg hcred]
      exact ⟨by trivial, by trivial⟩

theorem C5_scheduler_step_witness :
    (controlPick traceStB 0).1 = tracePB
    ∧ (controlPick traceStB 0).2.buffer = [] := by
  have h2 : (0 : ℕ) < traceStB.buffer.length := by simp [traceStB, traceStA]
  have h := ((C5_scheduler_step traceStB 0 1 (le_of_lt h2)).2.1 h2).2
    (by simp [traceStB, traceStA, tracePB])
  refine ⟨?_, ?_⟩
  · rw [h.1]
    simp [traceStB, traceStA]
  · rw [h.2]
    simp [traceStB, traceStA, deleteIndex]

/-- The completed-particle record pushed by `exit` (asmc.js lines 162-168). -/
def completedParticle {S A : Type} (p : Particle S A) (v : A) : Particle S A :=
  { p with value := some v, completed := true, weight := p.finalWeight }

/-- C7 (amended): every particle that a `factor` call pushes back into the
buffer carries `finalWeight = log multiplicity + weight + score` with `weight`
its rebased weight; at a first arrival the code instead sets `finalWeight` to
the particle's accumulated weight `W` (no multiplicity or score correction);
and `exit` reports the completed particle's weight as its `finalWeight`. -/
theorem C7_final_weight_policy {S A : Type} :
    (∀ (st : AState S A) (p : Particle S A) (s : S) (cc : S → Susp S A)
        (score : EReal) (u : ℝ) (q : Particle S A),
        (factorUpd st p s cc score u).buffer = st.buffer ++ [q] →
        q.finalWeight = jsLog ((q.multiplicity : ℝ)) + q.weight + score)
    ∧ (∀ (st : AState S A) (p : Particle S A) (s : S) (cc : S → Susp S A)
        (score : EReal) (u : ℝ),
        p.weight + score ≠ ⊥ → st.obsWeights (nextFI p) = none →
        (factorUpd st p s cc score u).activeParticle
          = some (firstArrivalParticle p s cc score)
        ∧ (firstArrivalParticle p s cc score).finalWeight = p.weight + score)
    ∧ (∀ (st : AState S A) (p : Particle S A) (v : A),
        (exitUpd st p v).exitedParticles
          = st.exitedParticles ++ [completedParticle p v]
        ∧ (completedParticle p v).weight = p.finalWeight) := by
  refine ⟨?_, ?_, ?_⟩
  · intro st p s cc score u q hq
    by_cases hW : p.weight + score = ⊥
    · rw [factorUpd_dead st p s cc score u hW] at hq
      have hlen := congrArg List.length hq
      simp at hlen
    · rcases hlk : st.obsWeights (nextFI p) with _ | lk
      · rw [factorUpd_first st p s cc score u hW hlk] at hq
        have hlen := congrArg List.length hq
        simp at hlen
      · rw [factorUpd_arrival st p s cc score u lk hW hlk] at hq
        by_cases hc : 0 < (numChildrenAndWeight st.bufferSize lk
            (suspendUpd p s cc score).multiplicity (suspendUpd p s cc score).weight u).1
        · simp only [if_pos hc] at hq
          have hq2 : survivorParticle st p s cc score u lk = q := by
            have h3 : [survivorParticle st p s cc score u lk] = [q] :=
              List.append_cancel_left hq
            simpa using h3
          rw [← hq2, survivorParticle]
        · simp only [if_neg hc] at hq
          have hlen := congrArg List.length hq
          simp at hlen
  · intro st p s cc score u hW hlk
    rw [factorUpd_first st p s cc score u hW hlk]
    exact ⟨rfl, rfl⟩
  · intro st p v
    exact ⟨rfl, rfl⟩

theorem C7_final_weight_policy_witness :
    tracePB.finalWeight = jsLog ((tracePB.multiplicity : ℝ)) + tracePB.weight + 0 := by
  have hbuf : (factorUpd traceStA (initParticle () oneFactorModel) () afterFactorK
      0 1).buffer = traceStA.buffer ++ [tracePB] := by
    simp [factorUpd, suspendUpd, initParticle, nextFI, traceStA, tracePB,
      oneFactorModel, afterFactorK, EReal.zero_ne_bot, refWbar_one_entry,
      ncw_second_arrival, jsLog_one]
  exact C7_final_weight_policy.1 traceStA (initParticle () oneFactorModel)
    () afterFactorK 0 1 tracePB hbuf

/-- The particle produced by a first arrival with score `log 2` on a fresh
particle. -/
def probeParticle : Particle Unit Unit :=
  firstArrivalParticle (initParticle () oneFactorModel) () afterFactorK
    ((Real.log 2 : ℝ) : EReal)

/-- C7 (counterexample): at a first arrival with score `log 2`, the code sets
`finalWeight` to the particle's weight `log 2`, while the claimed law
`finalWeight = log multiplicity + weight + score` would give `2 log 2`: the
law fails at first arrivals even though the particle is awarded one child. -/
theorem C7_first_arrival_counterexample :
    (factorUpd (aSMCinit () oneFactorModel 10 1) (initParticle () oneFactorModel)
        () afterFactorK ((Real.log 2 : ℝ) : EReal) 1).activeParticle
      = some probeParticle
    ∧ probeParticle.numChildrenToSpawn = 1
    ∧ probeParticle.finalWeight
        ≠ jsLog ((probeParticle.multiplicity : ℝ)) + probeParticle.weight
            + ((Real.log 2 : ℝ) : EReal) := by
  have hW : (initParticle () oneFactorModel : Particle Unit Unit).weight
      + ((Real.log 2 : ℝ) : EReal) ≠ ⊥ := by
    simp [initParticle, EReal.coe_ne_bot]
  refine ⟨?_, rfl, ?_⟩
  · rw [factorUpd_first _ _ _ _ _ _ hW rfl]
    rfl
  · have hpos : 0 < Real.log 2 := Real.log_pos one_lt_two
    simp only [probeParticle, firstArrivalParticle, suspendUpd, initParticle,
      nextFI, Nat.cast_one, jsLog_one, zero_add]
    rw [← EReal.coe_add]
    intro hcontra
    rw [EReal.coe_eq_coe_iff] at hcontra
    linarith

/-- C9 (amended): `aSMC` performs no validation of `numParticles` or
`bufferSize`: initialisation completes normally for every configuration,
including non-positive ones, and with `numParticles = 0` and `bufferSize = 0`
the first scheduler pick proceeds by injecting a fresh particle. -/
theorem C9_no_validation {S A : Type} (s : S) (k : S → Susp S A) (n bs : ℕ) :
    (aSMCinit s k n bs).buffer.length = bs * 3 / 5
    ∧ (aSMCinit s k n bs).numParticles = n
    ∧ (aSMCinit s k n bs).bufferSize = bs
    ∧ (controlPick (aSMCinit s k 0 0) 0).1 = initParticle s k := by
  refine ⟨?_, rfl, rfl, ?_⟩
  · simp [aSMCinit]
  · rw [controlPick]
    simp [aSMCinit]

/-- C9 (counterexample): with `numParticles = 0` and `bufferSize = 0` a full
scheduler step—including a `factor` with its ledger write—executes normally,
so no InvalidConfig failure happens before any step. -/
theorem C9_nonpositive_config_counterexample :
    (runSteps (aSMCinit () oneFactorModel 0 0) [(0, 1)]).obsWeights 0
      = some [⟨0, 1⟩]
    ∧ (runSteps (aSMCinit () oneFactorModel 0 0) [(0, 1)]).activeParticle
      = some tracePB := by
  constructor
  · simp [runSteps, schedStep, aSMCinit, controlPick, handleSusp, factorUpd,
      suspendUpd, initParticle, oneFactorModel, afterFactorK, nextFI,
      EReal.zero_ne_bot]
  · simp [runSteps, schedStep, aSMCinit, controlPick, handleSusp, factorUpd,
      suspendUpd, initParticle, oneFactorModel, afterFactorK, nextFI,
      EReal.zero_ne_bot, tracePB]

end

end ASMC
